import Mathlib

/-!
Shallow embedding of the `typeinfer` Rust module (src/src/lib.rs): pairwise
scoring of bibliographic name records, aggregation into a probability
distribution over collections, top-choice classification, and model
evaluation.

Modelling conventions:
* `i32` fields become `Int` (overflow is out of scope for the claims).
* `f64` scores become `ℚ` (the claims are about exact arithmetic;
  `f64::powf` on the nonnegative integer year difference is monoid power).
* `std::collections::HashMap` becomes an association list with unique keys;
  `entry(k).or_insert(0.0) += v` updates the existing entry in place or
  appends a fresh `(k, v)` at the end.  Iteration order of a `HashMap` is
  unspecified in Rust; this embedding realizes one concrete order
  (insertion order).
-/

/-- The `NameData` pyclass of src/src/lib.rs. -/
structure NameData where
  collection : Int
  tl_country : Int
  year : Int
  authors : List Int
  citation_group : Int
  name_id : Int
deriving DecidableEq

/-- The `Params` pyclass of src/src/lib.rs. -/
structure Params where
  country_boost : ℚ
  cg_boost : ℚ
  author_boost : ℚ
  year_factor : ℚ
  year_boost : ℚ
  score_cutoff : ℚ
  probability_cutoff : ℚ
deriving DecidableEq

/-- The `ScoreInfo` pyclass of src/src/lib.rs. -/
structure ScoreInfo where
  score : Int
  correct : Int
  incorrect : Int
  no_value : Int
deriving DecidableEq

/-- `get_score` (src/src/lib.rs lines 84-116): pairwise similarity of two
records.  Mirrors the Rust control flow exactly: self-comparison by id
returns 0; the baseline 1 is multiplied by `country_boost` on country
match and `cg_boost` on citation-group match; the author term multiplies by
`author_boost` when the author vectors are equal, else by
`overlap_prop * author_boost` when the overlap proportion is positive;
finally the year term `(1 / year_factor ^ |Δyear|) * year_boost` is
applied. -/
def get_score (nam1 nam2 : NameData) (params : Params) : ℚ :=
  if nam1.name_id = nam2.name_id then 0
  else
    let s1 : ℚ := 1
    let s2 : ℚ := if nam1.tl_country = nam2.tl_country then s1 * params.country_boost else s1
    let s3 : ℚ := if nam1.citation_group = nam2.citation_group then s2 * params.cg_boost else s2
    let s4 : ℚ :=
      if nam1.authors = nam2.authors then s3 * params.author_boost
      else
        let shared_authors : ℕ := (nam1.authors.filter (fun a => nam2.authors.contains a)).length
        let total_authors : ℕ := nam1.authors.length + nam2.authors.length - shared_authors
        let overlap_prop : ℚ := (shared_authors : ℚ) / (total_authors : ℚ)
        if 0 < overlap_prop then s3 * (overlap_prop * params.author_boost) else s3
    let year_difference : ℕ := (nam1.year - nam2.year).natAbs
    s4 * ((1 / params.year_factor ^ year_difference) * params.year_boost)

/-- `*scores.entry(k).or_insert(0.0) += v` on the association-list model:
add `v` to the entry with key `k`, appending `(k, v)` when absent. -/
def addToBucket (m : List (Int × ℚ)) (k : Int) (v : ℚ) : List (Int × ℚ) :=
  match m with
  | [] => [(k, v)]
  | kv :: rest => if kv.1 = k then (kv.1, kv.2 + v) :: rest else kv :: addToBucket rest k v

/-- First value stored under key `k`. -/
def lookupQ (m : List (Int × ℚ)) (k : Int) : Option ℚ :=
  match m with
  | [] => none
  | kv :: rest => if kv.1 = k then some kv.2 else lookupQ rest k

/-- Value stored under key `k`, defaulting to 0 (the `or_insert(0.0)` default). -/
def lookupD (m : List (Int × ℚ)) (k : Int) : ℚ := (lookupQ m k).getD 0

/-- Sum of all bucket values (`scores.values().sum()`). -/
def valuesSum (m : List (Int × ℚ)) : ℚ := (m.map Prod.snd).sum

/-- Keys of the map, in iteration order. -/
def keysOf (m : List (Int × ℚ)) : List Int := m.map Prod.fst

/-- Loop body of `get_probs_impl` (src/src/lib.rs lines 126-134): the state
is the bucket map together with the running highest score. -/
def probsStep (data : NameData) (params : Params) (acc : List (Int × ℚ) × ℚ)
    (t : NameData) : List (Int × ℚ) × ℚ :=
  let score := get_score data t params
  (if params.score_cutoff < score then addToBucket acc.1 t.collection score else acc.1,
   if acc.2 < score then score else acc.2)

/-- The bucket map and highest score after the candidate loop of
`get_probs_impl`; the highest score starts at 1.0. -/
def rawBuckets (data : NameData) (train_data : List NameData) (params : Params) :
    List (Int × ℚ) × ℚ :=
  train_data.foldl (probsStep data params) ([], 1)

/-- The running maximum pairwise score of `get_probs_impl`, initialized to 1.0. -/
def highestScore (data : NameData) (train_data : List NameData) (params : Params) : ℚ :=
  (rawBuckets data train_data params).2

/-- The `scores` map of `get_probs_impl` just before normalization: the
candidate buckets with the highest score added into bucket 0 (line 135). -/
def scoresMap (data : NameData) (train_data : List NameData) (params : Params) :
    List (Int × ℚ) :=
  addToBucket (rawBuckets data train_data params).1 0 (rawBuckets data train_data params).2

/-- `total_score` of `get_probs_impl` (line 136). -/
def totalScore (data : NameData) (train_data : List NameData) (params : Params) : ℚ :=
  valuesSum (scoresMap data train_data params)

/-- `get_probs` / `get_probs_impl` (src/src/lib.rs lines 118-142): every
bucket normalized by the total. -/
def get_probs (data : NameData) (train_data : List NameData) (params : Params) :
    List (Int × ℚ) :=
  (scoresMap data train_data params).map
    (fun kv => (kv.1, kv.2 / totalScore data train_data params))

/-- Loop body of `get_top_choice` (src/src/lib.rs lines 149-154): replace the
running `(top_choice, top_score)` when a strictly larger value appears. -/
def topStep (acc : Int × ℚ) (kv : Int × ℚ) : Int × ℚ :=
  if acc.2 < kv.2 then kv else acc

/-- `get_top_choice` (src/src/lib.rs lines 144-159): scan the probability
map starting from the sentinel `(-1, probability_cutoff)`; return `none`
when the final choice is still the sentinel `-1`. -/
def get_top_choice (data : NameData) (train_data : List NameData) (params : Params) :
    Option (Int × ℚ) :=
  if ((get_probs data train_data params).foldl topStep (-1, params.probability_cutoff)).1 = -1
  then none
  else some ((get_probs data train_data params).foldl topStep (-1, params.probability_cutoff))

/-- `get_top_choice_impl` (src/src/lib.rs lines 161-172): same scan, returning
only the collection id, `-1` meaning no decision. -/
def get_top_choice_impl (data : NameData) (train_data : List NameData) (params : Params) :
    Int :=
  ((get_probs data train_data params).foldl topStep (-1, params.probability_cutoff)).1

/-- `FALSE_POSITIVE_COST` (src/src/lib.rs line 174). -/
def FALSE_POSITIVE_COST : Int := 10

/-- Loop body of `evaluate_model_impl` (src/src/lib.rs lines 203-214): the
state is `(correct, incorrect, no_value)`. -/
def evalStep (train_data : List NameData) (params : Params) (acc : Int × Int × Int)
    (nam : NameData) : Int × Int × Int :=
  if get_top_choice_impl nam train_data params = -1 then (acc.1, acc.2.1, acc.2.2 + 1)
  else if get_top_choice_impl nam train_data params = nam.collection
  then (acc.1 + 1, acc.2.1, acc.2.2)
  else (acc.1, acc.2.1 + 1, acc.2.2)

/-- `evaluate_model` / `evaluate_model_impl` (src/src/lib.rs lines 194-224). -/
def evaluate_model (train_data test_data : List NameData) (params : Params) : ScoreInfo :=
  { score := (test_data.foldl (evalStep train_data params) (0, 0, 0)).1 -
      (test_data.foldl (evalStep train_data params) (0, 0, 0)).2.1 * FALSE_POSITIVE_COST
    correct := (test_data.foldl (evalStep train_data params) (0, 0, 0)).1
    incorrect := (test_data.foldl (evalStep train_data params) (0, 0, 0)).2.1
    no_value := (test_data.foldl (evalStep train_data params) (0, 0, 0)).2.2 }

/-- A candidate score gated by the score cutoff: the score itself when it
strictly exceeds `score_cutoff`, else 0 (its contribution to the buckets). -/
def gatedScore (data : NameData) (params : Params) (t : NameData) : ℚ :=
  if params.score_cutoff < get_score data t params then get_score data t params else 0

/-- Sum of the gated scores of the candidates belonging to collection `k`. -/
def passSum (data : NameData) (train_data : List NameData) (params : Params) (k : Int) : ℚ :=
  (train_data.map (fun t => if t.collection = k then gatedScore data params t else 0)).sum

/-- Record with empty author list used against `exC1b` to exercise the
empty-author-set case of `get_score`. -/
def exC1a : NameData := ⟨1, 1, 2000, [], 1, 1⟩

/-- Second record with empty author list, differing from `exC1a` in id,
country and citation group. -/
def exC1b : NameData := ⟨2, 2, 2000, [], 2, 2⟩

/-- Parameters with `author_boost = 3` and all other boosts neutral. -/
def exC1p : Params := ⟨1, 1, 3, 1, 1, 0, 0⟩

/-- Empty-author record matching `exC1wb` on nothing but the year. -/
def exC1wa : NameData := ⟨1, 1, 2000, [], 1, 3⟩

/-- Empty-author record with country and citation group different from
`exC1wa`. -/
def exC1wb : NameData := ⟨1, 2, 2000, [], 2, 4⟩

/-- Parameters with distinct boosts for the empty-author evaluation. -/
def exC1wp : Params := ⟨2, 2, 3, 2, 5, 0, 0⟩

/-- Query record for the tie-break scenario. -/
def exTieQ : NameData := ⟨9, 1, 2000, [], 1, 100⟩

/-- Training set for the tie-break scenario: two records in collection 1 and
two in collection 2, all scoring 1 against `exTieQ`. -/
def exTieTrain : List NameData :=
  [⟨1, 1, 2000, [], 1, 1⟩, ⟨1, 1, 2000, [], 1, 2⟩, ⟨2, 1, 2000, [], 1, 3⟩, ⟨2, 1, 2000, [], 1, 4⟩]

/-- Neutral parameters with probability cutoff 3/10 for the tie-break
scenario. -/
def exTieP : Params := ⟨1, 1, 1, 1, 1, 0, 3/10⟩

/-- Query record for the degenerate reserved-bucket scenario. -/
def exC5q : NameData := ⟨9, 1, 2000, [], 1, 100⟩

/-- Candidate in collection 0 scoring -1 against `exC5q`. -/
def exC5a : NameData := ⟨0, 2, 2000, [1], 2, 1⟩

/-- Candidate in collection 5 scoring -1 against `exC5q`. -/
def exC5b : NameData := ⟨5, 3, 2000, [2], 3, 2⟩

/-- Parameters with negative `year_boost` and negative `score_cutoff`,
driving the collection-0 bucket to exactly 0. -/
def exC5p : Params := ⟨1, 1, 1, 1, -1, -2, 1/2⟩

/-- Record with matching attributes one year after `exC8b`. -/
def exC8a : NameData := ⟨1, 1, 2001, [7], 1, 1⟩

/-- Record with matching attributes one year before `exC8a`. -/
def exC8b : NameData := ⟨1, 1, 2000, [7], 1, 2⟩

/-- Test record whose true collection id is the sentinel value -1. -/
def exC9q : NameData := ⟨-1, 1, 2000, [], 1, 100⟩

/-- First training record in collection -1, scoring 1 against `exC9q`. -/
def exC9a : NameData := ⟨-1, 1, 2000, [], 1, 1⟩

/-- Second training record in collection -1, scoring 1 against `exC9q`. -/
def exC9b : NameData := ⟨-1, 1, 2000, [], 1, 2⟩

/-- Neutral parameters with probability cutoff 1/2. -/
def exC9p : Params := ⟨1, 1, 1, 1, 1, 0, 1/2⟩

/-- Neutral parameters with probability cutoff 1/2 for the empty-training
scenario. -/
def exC7p : Params := ⟨1, 1, 1, 1, 1, 0, 1/2⟩

/-! ### Association-list lemmas -/

theorem valuesSum_nil : valuesSum [] = 0 := rfl

theorem valuesSum_cons (kv : Int × ℚ) (m : List (Int × ℚ)) :
    valuesSum (kv :: m) = kv.2 + valuesSum m := by
  simp [valuesSum]

theorem valuesSum_addToBucket (m : List (Int × ℚ)) (k : Int) (v : ℚ) :
    valuesSum (addToBucket m k v) = valuesSum m + v := by
  induction m with
  | nil => simp [addToBucket, valuesSum]
  | cons kv rest ih =>
      by_cases h : kv.1 = k
      · simp [addToBucket, h, valuesSum_cons]
        ring
      · simp [addToBucket, h, valuesSum_cons, ih]
        ring

theorem lookupQ_addToBucket_same (m : List (Int × ℚ)) (k : Int) (v : ℚ) :
    lookupQ (addToBucket m k v) k = some (lookupD m k + v) := by
  induction m with
  | nil => simp [addToBucket, lookupQ, lookupD]
  | cons kv rest ih =>
      by_cases h : kv.1 = k
      · simp [addToBucket, h, lookupQ, lookupD]
      · simp [addToBucket, h, lookupQ, lookupD, ih]

theorem lookupQ_addToBucket_ne (m : List (Int × ℚ)) (k j : Int) (v : ℚ) (h : j ≠ k) :
    lookupQ (addToBucket m k v) j = lookupQ m j := by
  have hkj : ¬ k = j := fun e => h e.symm
  induction m with
  | nil => simp [addToBucket, lookupQ, hkj]
  | cons kv rest ih =>
      by_cases hk : kv.1 = k
      · simp [addToBucket, hk, lookupQ, hkj]
      · by_cases hj : kv.1 = j
        · simp [addToBucket, hk, lookupQ, hj, h]
        · simp [addToBucket, hk, lookupQ, hj, ih]

theorem lookupD_addToBucket_same (m : List (Int × ℚ)) (k : Int) (v : ℚ) :
    lookupD (addToBucket m k v) k = lookupD m k + v := by
  simp [lookupD, lookupQ_addToBucket_same]

theorem lookupD_addToBucket_ne (m : List (Int × ℚ)) (k j : Int) (v : ℚ) (h : j ≠ k) :
    lookupD (addToBucket m k v) j = lookupD m j := by
  simp [lookupD, lookupQ_addToBucket_ne m k j v h]

theorem keysOf_nil : keysOf [] = [] := rfl

theorem keysOf_cons (kv : Int × ℚ) (m : List (Int × ℚ)) :
    keysOf (kv :: m) = kv.1 :: keysOf m := rfl

theorem mem_keysOf_addToBucket (m : List (Int × ℚ)) (k : Int) (v : ℚ) (x : Int)
    (hx : x ∈ keysOf (addToBucket m k v)) : x = k ∨ x ∈ keysOf m := by
  induction m with
  | nil => simpa [addToBucket, keysOf] using hx
  | cons kv rest ih =>
      by_cases h : kv.1 = k
      · simpa [addToBucket, h, keysOf_cons] using hx
      · rw [addToBucket] at hx
        simp only [if_neg h, keysOf_cons, List.mem_cons] at hx
        rcases hx with hx | hx
        · exact Or.inr (by simp [keysOf_cons, hx])
        · rcases ih hx with hx | hx
          · exact Or.inl hx
          · exact Or.inr (by simp [keysOf_cons, hx])

theorem nodup_keysOf_addToBucket (m : List (Int × ℚ)) (k : Int) (v : ℚ)
    (h : (keysOf m).Nodup) : (keysOf (addToBucket m k v)).Nodup := by
  induction m with
  | nil => simp [addToBucket, keysOf]
  | cons kv rest ih =>
      rw [keysOf_cons, List.nodup_cons] at h
      by_cases hk : kv.1 = k
      · simp only [addToBucket, if_pos hk, keysOf_cons, List.nodup_cons]
        exact h
      · simp only [addToBucket, if_neg hk, keysOf_cons, List.nodup_cons]
        refine ⟨fun hmem => ?_, ih h.2⟩
        rcases mem_keysOf_addToBucket rest k v kv.1 hmem with h1 | h1
        · exact hk h1
        · exact h.1 h1

theorem values_nonneg_addToBucket (m : List (Int × ℚ)) (k : Int) (v : ℚ)
    (hm : ∀ kv ∈ m, 0 ≤ kv.2) (hv : 0 ≤ v) : ∀ kv ∈ addToBucket m k v, 0 ≤ kv.2 := by
  induction m with
  | nil =>
      intro kv hkv
      simp only [addToBucket, List.mem_singleton] at hkv
      simp [hkv, hv]
  | cons kv0 rest ih =>
      intro kv hkv
      by_cases h : kv0.1 = k
      · rw [addToBucket] at hkv
        simp only [if_pos h, List.mem_cons] at hkv
        rcases hkv with hkv | hkv
        · have h0 := hm kv0 (List.mem_cons_self kv0 rest)
          simp [hkv]
          exact add_nonneg h0 hv
        · exact hm kv (List.mem_cons_of_mem kv0 hkv)
      · rw [addToBucket] at hkv
        simp only [if_neg h, List.mem_cons] at hkv
        rcases hkv with hkv | hkv
        · exact hkv ▸ hm kv0 (List.mem_cons_self kv0 rest)
        · exact ih (fun x hx => hm x (List.mem_cons_of_mem kv0 hx)) kv hkv

theorem lookupQ_mem (m : List (Int × ℚ)) (k : Int) (v : ℚ) (h : lookupQ m k = some v) :
    (k, v) ∈ m := by
  induction m with
  | nil => simp [lookupQ] at h
  | cons kv rest ih =>
      by_cases hk : kv.1 = k
      · rw [lookupQ, if_pos hk] at h
        have hv : kv.2 = v := by
          simpa using h
        have hkv : kv = (k, v) := Prod.ext hk hv
        exact List.mem_cons.mpr (Or.inl hkv.symm)
      · rw [lookupQ, if_neg hk] at h
        exact List.mem_cons_of_mem kv (ih h)

theorem mem_lookupQ_of_nodup (m : List (Int × ℚ)) (k : Int) (v : ℚ)
    (hnd : (keysOf m).Nodup) (h : (k, v) ∈ m) : lookupQ m k = some v := by
  induction m with
  | nil => simp at h
  | cons kv rest ih =>
      rw [keysOf_cons, List.nodup_cons] at hnd
      rcases List.mem_cons.mp h with h1 | h1
      · rw [lookupQ]
        simp [← h1]
      · have hk : ¬ kv.1 = k := by
          intro hk
          exact hnd.1 (hk ▸ (List.mem_map_of_mem Prod.fst h1 : k ∈ keysOf rest))
        rw [lookupQ]
        simp only [if_neg hk]
        exact ih hnd.2 h1

/-! ### Lemmas about the normalization map -/

theorem keysOf_mapValues (m : List (Int × ℚ)) (f : ℚ → ℚ) :
    keysOf (m.map (fun kv => (kv.1, f kv.2))) = keysOf m := by
  induction m with
  | nil => rfl
  | cons kv rest ih => simp [keysOf_cons, ih]

theorem lookupQ_mapValues (m : List (Int × ℚ)) (f : ℚ → ℚ) (k : Int) :
    lookupQ (m.map (fun kv => (kv.1, f kv.2))) k = (lookupQ m k).map f := by
  induction m with
  | nil => simp [lookupQ]
  | cons kv rest ih =>
      by_cases hk : kv.1 = k
      · simp [lookupQ, hk]
      · simp [lookupQ, hk, ih]

theorem valuesSum_mapValues_div (m : List (Int × ℚ)) (t : ℚ) :
    valuesSum (m.map (fun kv => (kv.1, kv.2 / t))) = valuesSum m / t := by
  induction m with
  | nil => simp [valuesSum]
  | cons kv rest ih =>
      simp only [List.map_cons, valuesSum_cons, ih]
      rw [add_div]

/-! ### Lemmas about the candidate loop of `get_probs_impl` -/

theorem foldl_probsStep_snd (data : NameData) (prm : Params) (train : List NameData) :
    ∀ acc : List (Int × ℚ) × ℚ, acc.2 ≤ (train.foldl (probsStep data prm) acc).2 := by
  induction train with
  | nil => intro acc; exact le_refl _
  | cons t rest ih =>
      intro acc
      refine le_trans ?_ (ih (probsStep data prm acc t))
      rw [probsStep]
      by_cases h : acc.2 < get_score data t prm
      · simp only [if_pos h]
        exact le_of_lt h
      · simp only [if_neg h]
        exact le_refl _

theorem foldl_probsStep_valuesSum (data : NameData) (prm : Params) (train : List NameData) :
    ∀ acc : List (Int × ℚ) × ℚ,
      valuesSum (train.foldl (probsStep data prm) acc).1 =
        valuesSum acc.1 + (train.map (gatedScore data prm)).sum := by
  induction train with
  | nil => intro acc; simp
  | cons t rest ih =>
      intro acc
      rw [List.foldl_cons, ih (probsStep data prm acc t), List.map_cons, List.sum_cons]
      have hstep : valuesSum (probsStep data prm acc t).1 =
          valuesSum acc.1 + gatedScore data prm t := by
        rw [probsStep, gatedScore]
        by_cases h : prm.score_cutoff < get_score data t prm
        · simp only [if_pos h]
          exact valuesSum_addToBucket acc.1 t.collection (get_score data t prm)
        · simp only [if_neg h, add_zero]
      rw [hstep]
      ring

theorem foldl_probsStep_lookupD (data : NameData) (prm : Params) (k : Int)
    (train : List NameData) :
    ∀ acc : List (Int × ℚ) × ℚ,
      lookupD (train.foldl (probsStep data prm) acc).1 k =
        lookupD acc.1 k + passSum data train prm k := by
  induction train with
  | nil => intro acc; simp [passSum]
  | cons t rest ih =>
      intro acc
      rw [List.foldl_cons, ih (probsStep data prm acc t)]
      have hstep : lookupD (probsStep data prm acc t).1 k =
          lookupD acc.1 k + (if t.collection = k then gatedScore data prm t else 0) := by
        rw [probsStep, gatedScore]
        by_cases h : prm.score_cutoff < get_score data t prm
        · simp only [if_pos h]
          by_cases hc : t.collection = k
          · rw [hc, lookupD_addToBucket_same]
            simp [h]
          · rw [lookupD_addToBucket_ne acc.1 t.collection k _ (fun e => hc e.symm)]
            simp [hc]
        · simp only [if_neg h]
          by_cases hc : t.collection = k <;> simp [hc]
      rw [hstep]
      have hps : passSum data (t :: rest) prm k =
          (if t.collection = k then gatedScore data prm t else 0) + passSum data rest prm k := by
        rw [passSum, passSum, List.map_cons, List.sum_cons]
      rw [hps]
      ring

theorem foldl_probsStep_values_nonneg (data : NameData) (prm : Params)
    (hsc : 0 ≤ prm.score_cutoff) (train : List NameData) :
    ∀ acc : List (Int × ℚ) × ℚ, (∀ kv ∈ acc.1, 0 ≤ kv.2) →
      ∀ kv ∈ (train.foldl (probsStep data prm) acc).1, 0 ≤ kv.2 := by
  induction train with
  | nil => intro acc hacc; exact hacc
  | cons t rest ih =>
      intro acc hacc
      rw [List.foldl_cons]
      refine ih (probsStep data prm acc t) ?_
      rw [probsStep]
      by_cases h : prm.score_cutoff < get_score data t prm
      · simp only [if_pos h]
        exact values_nonneg_addToBucket acc.1 t.collection _ hacc
          (le_of_lt (lt_of_le_of_lt hsc h))
      · simp only [if_neg h]
        exact hacc

theorem foldl_probsStep_keys (data : NameData) (prm : Params) (train : List NameData) :
    ∀ (acc : List (Int × ℚ) × ℚ) (x : Int),
      x ∈ keysOf (train.foldl (probsStep data prm) acc).1 →
        x ∈ keysOf acc.1 ∨ x ∈ train.map NameData.collection := by
  induction train with
  | nil => intro acc x hx; exact Or.inl hx
  | cons t rest ih =>
      intro acc x hx
      rw [List.foldl_cons] at hx
      rcases ih (probsStep data prm acc t) x hx with h1 | h1
      · rw [probsStep] at h1
        by_cases h : prm.score_cutoff < get_score data t prm
        · rw [if_pos h] at h1
          rcases mem_keysOf_addToBucket acc.1 t.collection _ x h1 with h2 | h2
          · exact Or.inr (by simp [h2])
          · exact Or.inl h2
        · rw [if_neg h] at h1
          exact Or.inl h1
      · exact Or.inr (by simp [h1])

theorem foldl_probsStep_keys_nodup (data : NameData) (prm : Params) (train : List NameData) :
    ∀ acc : List (Int × ℚ) × ℚ, (keysOf acc.1).Nodup →
      (keysOf (train.foldl (probsStep data prm) acc).1).Nodup := by
  induction train with
  | nil => intro acc hacc; exact hacc
  | cons t rest ih =>
      intro acc hacc
      rw [List.foldl_cons]
      refine ih (probsStep data prm acc t) ?_
      rw [probsStep]
      by_cases h : prm.score_cutoff < get_score data t prm
      · simp only [if_pos h]
        exact nodup_keysOf_addToBucket acc.1 t.collection _ hacc
      · simp only [if_neg h]
        exact hacc

/-! ### Derived facts about `get_probs` -/

theorem one_le_highestScore (data : NameData) (train : List NameData) (prm : Params) :
    1 ≤ highestScore data train prm :=
  foldl_probsStep_snd data prm train ([], 1)

theorem lookupD_rawBuckets (data : NameData) (train : List NameData) (prm : Params) (k : Int) :
    lookupD (rawBuckets data train prm).1 k = passSum data train prm k := by
  rw [rawBuckets, foldl_probsStep_lookupD data prm k train ([], 1)]
  simp [lookupD, lookupQ]

theorem totalScore_eq (data : NameData) (train : List NameData) (prm : Params) :
    totalScore data train prm =
      (train.map (gatedScore data prm)).sum + highestScore data train prm := by
  rw [totalScore, scoresMap, valuesSum_addToBucket, highestScore, rawBuckets,
    foldl_probsStep_valuesSum data prm train ([], 1)]
  simp [valuesSum]

theorem gatedScore_nonneg (data : NameData) (prm : Params) (t : NameData)
    (hsc : 0 ≤ prm.score_cutoff) : 0 ≤ gatedScore data prm t := by
  rw [gatedScore]
  by_cases h : prm.score_cutoff < get_score data t prm
  · rw [if_pos h]
    exact le_of_lt (lt_of_le_of_lt hsc h)
  · rw [if_neg h]

theorem totalScore_pos (data : NameData) (train : List NameData) (prm : Params)
    (hsc : 0 ≤ prm.score_cutoff) : 0 < totalScore data train prm := by
  rw [totalScore_eq]
  have h1 : 0 ≤ (train.map (gatedScore data prm)).sum := by
    refine List.sum_nonneg ?_
    intro x hx
    rcases List.mem_map.mp hx with ⟨t, _, rfl⟩
    exact gatedScore_nonneg data prm t hsc
  have h2 := one_le_highestScore data train prm
  linarith

theorem nodup_keys_scoresMap (data : NameData) (train : List NameData) (prm : Params) :
    (keysOf (scoresMap data train prm)).Nodup := by
  rw [scoresMap]
  refine nodup_keysOf_addToBucket _ 0 _ ?_
  rw [rawBuckets]
  refine foldl_probsStep_keys_nodup data prm train ([], 1) ?_
  simp [keysOf]

theorem keysOf_get_probs (data : NameData) (train : List NameData) (prm : Params) :
    keysOf (get_probs data train prm) = keysOf (scoresMap data train prm) := by
  rw [get_probs]
  exact keysOf_mapValues (scoresMap data train prm) (fun v => v / totalScore data train prm)

theorem nodup_keys_get_probs (data : NameData) (train : List NameData) (prm : Params) :
    (keysOf (get_probs data train prm)).Nodup := by
  rw [keysOf_get_probs]
  exact nodup_keys_scoresMap data train prm

theorem mem_keys_get_probs (data : NameData) (train : List NameData) (prm : Params) (x : Int)
    (hx : x ∈ keysOf (get_probs data train prm)) :
    x = 0 ∨ x ∈ train.map NameData.collection := by
  rw [keysOf_get_probs, scoresMap] at hx
  rcases mem_keysOf_addToBucket _ 0 _ x hx with h1 | h1
  · exact Or.inl h1
  · rw [rawBuckets] at h1
    rcases foldl_probsStep_keys data prm train ([], 1) x h1 with h2 | h2
    · simp [keysOf] at h2
    · exact Or.inr h2

theorem lookupQ_get_probs (data : NameData) (train : List NameData) (prm : Params) (k : Int) :
    lookupQ (get_probs data train prm) k =
      (lookupQ (scoresMap data train prm) k).map
        (fun v => v / totalScore data train prm) := by
  rw [get_probs]
  exact lookupQ_mapValues (scoresMap data train prm) (fun v => v / totalScore data train prm) k

theorem lookupQ_scoresMap_zero (data : NameData) (train : List NameData) (prm : Params) :
    lookupQ (scoresMap data train prm) 0 =
      some (passSum data train prm 0 + highestScore data train prm) := by
  rw [scoresMap, lookupQ_addToBucket_same, lookupD_rawBuckets, highestScore]

/-! ### Lemmas about the scan of `get_top_choice` -/

theorem foldl_topStep_stays (l : List (Int × ℚ)) :
    ∀ (c : Int) (s : ℚ), (∀ kv ∈ l, kv.2 ≤ s) → l.foldl topStep (c, s) = (c, s) := by
  induction l with
  | nil => intro c s _; rfl
  | cons kv rest ih =>
      intro c s hub
      rw [List.foldl_cons]
      have hkv : kv.2 ≤ s := hub kv (List.mem_cons_self kv rest)
      have hstep : topStep (c, s) kv = (c, s) := by
        rw [topStep, if_neg (not_lt.mpr hkv)]
      rw [hstep]
      exact ih c s (fun x hx => hub x (List.mem_cons_of_mem kv hx))

theorem foldl_topStep_spec (l : List (Int × ℚ)) :
    ∀ (c : Int) (s : ℚ),
      l.foldl topStep (c, s) = (c, s) ∨
        (l.foldl topStep (c, s) ∈ l ∧ s < (l.foldl topStep (c, s)).2) := by
  induction l with
  | nil => intro c s; exact Or.inl rfl
  | cons kv rest ih =>
      intro c s
      rw [List.foldl_cons, topStep]
      by_cases h : s < kv.2
      · rw [if_pos h]
        have hkv : kv = (kv.1, kv.2) := rfl
        rcases hkv ▸ ih kv.1 kv.2 with h1 | h1
        · refine Or.inr ⟨?_, ?_⟩
          · rw [h1]; exact List.mem_cons_self kv rest
          · rw [h1]; exact h
        · exact Or.inr ⟨List.mem_cons_of_mem kv h1.1, lt_trans h h1.2⟩
      · rw [if_neg h]
        rcases ih c s with h1 | h1
        · exact Or.inl h1
        · exact Or.inr ⟨List.mem_cons_of_mem kv h1.1, h1.2⟩

theorem foldl_topStep_find (l : List (Int × ℚ)) (q : ℚ) :
    ∀ (c0 : Int) (s0 : ℚ), s0 < q → (∀ kv ∈ l, kv.2 ≤ q) →
      ∀ kv0, l.find? (fun kv => decide (kv.2 = q)) = some kv0 →
        l.foldl topStep (c0, s0) = (kv0.1, q) := by
  induction l with
  | nil => intro c0 s0 _ _ kv0 hfind; simp at hfind
  | cons kv rest ih =>
      obtain ⟨k1, v1⟩ := kv
      intro c0 s0 hs0 hub kv0 hfind
      by_cases h : v1 = q
      · rw [List.find?_cons_of_pos _ (by simp [h])] at hfind
        have hkv0 : kv0 = (k1, v1) := by
          simpa using hfind.symm
        rw [List.foldl_cons, topStep, if_pos (show s0 < (k1, v1).2 from h ▸ hs0)]
        rw [foldl_topStep_stays rest k1 v1
          (fun x hx => h ▸ hub x (List.mem_cons_of_mem (k1, v1) hx))]
        rw [hkv0, h]
      · rw [List.find?_cons_of_neg _ (by simp [h])] at hfind
        rw [List.foldl_cons, topStep]
        have hlt : v1 < q :=
          lt_of_le_of_ne (hub (k1, v1) (List.mem_cons_self (k1, v1) rest)) h
        by_cases hstep : s0 < (k1, v1).2
        · rw [if_pos hstep]
          exact ih k1 v1 hlt (fun x hx => hub x (List.mem_cons_of_mem (k1, v1) hx)) kv0 hfind
        · rw [if_neg hstep]
          exact ih c0 s0 hs0 (fun x hx => hub x (List.mem_cons_of_mem (k1, v1) hx)) kv0 hfind

/-! ### Lemmas about the evaluation loop -/

theorem evalStep_counts (train : List NameData) (prm : Params) (acc : Int × Int × Int)
    (nam : NameData) :
    (evalStep train prm acc nam).1 + (evalStep train prm acc nam).2.1 +
        (evalStep train prm acc nam).2.2 = acc.1 + acc.2.1 + acc.2.2 + 1 := by
  rw [evalStep]
  by_cases h1 : get_top_choice_impl nam train prm = -1
  · simp only [if_pos h1]
    ring
  · by_cases h2 : get_top_choice_impl nam train prm = nam.collection
    · simp only [if_neg h1, if_pos h2]
      ring
    · simp only [if_neg h1, if_neg h2]
      ring

theorem foldl_evalStep_counts (train : List NameData) (prm : Params) (test : List NameData) :
    ∀ acc : Int × Int × Int,
      (test.foldl (evalStep train prm) acc).1 + (test.foldl (evalStep train prm) acc).2.1 +
          (test.foldl (evalStep train prm) acc).2.2 =
        acc.1 + acc.2.1 + acc.2.2 + (test.length : Int) := by
  induction test with
  | nil => intro acc; simp
  | cons nam rest ih =>
      intro acc
      rw [List.foldl_cons, ih (evalStep train prm acc nam), evalStep_counts]
      simp only [List.length_cons]
      push_cast
      ring

/-! ### Concrete evaluations used by counterexamples and witnesses -/

theorem probs_tie_eval :
    get_probs exTieQ exTieTrain exTieP = [(1, 2/5), (2, 2/5), (0, 1/5)] := by
  norm_num [get_probs, scoresMap, totalScore, valuesSum, rawBuckets, probsStep, addToBucket,
    get_score, exTieQ, exTieTrain, exTieP]

theorem top_tie_eval : get_top_choice exTieQ exTieTrain exTieP = some (1, 2/5) := by
  rw [get_top_choice, probs_tie_eval]
  norm_num [topStep, exTieP]

theorem probs_c5_eval : get_probs exC5q [exC5a, exC5b] exC5p = [(0, 0), (5, 1)] := by
  norm_num [get_probs, scoresMap, totalScore, valuesSum, rawBuckets, probsStep, addToBucket,
    get_score, exC5q, exC5a, exC5b, exC5p]

theorem probs_c9_eval : get_probs exC9q [exC9a, exC9b] exC9p = [(-1, 2/3), (0, 1/3)] := by
  norm_num [get_probs, scoresMap, totalScore, valuesSum, rawBuckets, probsStep, addToBucket,
    get_score, exC9q, exC9a, exC9b, exC9p]

theorem top_c9_eval : get_top_choice exC9q [exC9a, exC9b] exC9p = none := by
  rw [get_top_choice, probs_c9_eval]
  norm_num [topStep, exC9p]

theorem top_impl_c9_eval : get_top_choice_impl exC9q [exC9a, exC9b] exC9p = -1 := by
  rw [get_top_choice_impl, probs_c9_eval]
  norm_num [topStep, exC9p]

/-! ### Claim theorems -/

/-- C1 (counterexample): with both author lists empty, `exC1a` and `exC1b`
differ in id, country and citation group under `author_boost = 3` and all
other factors neutral, so the claim predicts score 1 (no author factor);
the code's equality fast path multiplies by `author_boost` and returns 3. -/
theorem empty_authors_score_counterexample :
    get_score exC1a exC1b exC1p = 3 ∧ get_score exC1a exC1b exC1p ≠ 1 := by
  constructor
  · norm_num [get_score, exC1a, exC1b, exC1p]
  · norm_num [get_score, exC1a, exC1b, exC1p]

/-- C1 (amended): when both author lists are empty the two lists are equal,
so `get_score` takes the exact-equality branch and multiplies by
`author_boost`; the division-by-zero overlap path is never reached.  The
score is the country and citation-group factors times `author_boost` times
the year-decay term. -/
theorem empty_authors_applies_author_boost (nam1 nam2 : NameData) (prm : Params)
    (hid : nam1.name_id ≠ nam2.name_id) (h1 : nam1.authors = []) (h2 : nam2.authors = []) :
    get_score nam1 nam2 prm =
      (if nam1.tl_country = nam2.tl_country then prm.country_boost else 1) *
        (if nam1.citation_group = nam2.citation_group then prm.cg_boost else 1) *
        prm.author_boost *
        ((1 / prm.year_factor ^ (nam1.year - nam2.year).natAbs) * prm.year_boost) := by
  rw [get_score, if_neg hid]
  have ha : nam1.authors = nam2.authors := by rw [h1, h2]
  simp only [ha, if_pos rfl]
  by_cases hc : nam1.tl_country = nam2.tl_country <;>
    by_cases hcg : nam1.citation_group = nam2.citation_group <;>
      simp only [if_pos, if_neg, hc, hcg, if_true, if_false] <;> ring

/-- C1 (witness): the amended theorem evaluated at the concrete empty-author
records `exC1wa`, `exC1wb` with distinct country and citation group. -/
theorem empty_authors_applies_author_boost_witness :
    get_score exC1wa exC1wb exC1wp =
      (if exC1wa.tl_country = exC1wb.tl_country then exC1wp.country_boost else 1) *
        (if exC1wa.citation_group = exC1wb.citation_group then exC1wp.cg_boost else 1) *
        exC1wp.author_boost *
        ((1 / exC1wp.year_factor ^ (exC1wa.year - exC1wb.year).natAbs) * exC1wp.year_boost) :=
  empty_authors_applies_author_boost exC1wa exC1wb exC1wp (by decide) rfl rfl

/-- C2 (counterexample): in the tie scenario, collections 1 and 2 both reach
the maximum probability 2/5, strictly above the cutoff 3/10, yet
`get_top_choice` returns collection 1 — the one encountered first in the
scan — not collection 2, the one encountered last. -/
theorem tie_returns_first_counterexample :
    get_probs exTieQ exTieTrain exTieP = [(1, 2/5), (2, 2/5), (0, 1/5)] ∧
      exTieP.probability_cutoff < 2/5 ∧
      get_top_choice exTieQ exTieTrain exTieP = some (1, 2/5) ∧
      get_top_choice exTieQ exTieTrain exTieP ≠ some (2, 2/5) := by
  refine ⟨probs_tie_eval, by norm_num [exTieP], top_tie_eval, ?_⟩
  rw [top_tie_eval]
  simp

/-- C2 (amended): when a value `q` above the probability cutoff is the
maximum over all entries of the probability map, `get_top_choice` returns
the key of the FIRST entry of the scan attaining `q` (the strict `>`
comparison never replaces the running maximum on a tie), provided no
training record uses the sentinel collection id -1. -/
theorem tie_returns_first_encountered (data : NameData) (train : List NameData) (prm : Params)
    (q : ℚ) (hmem : ∃ kv ∈ get_probs data train prm, kv.2 = q)
    (hub : ∀ kv ∈ get_probs data train prm, kv.2 ≤ q)
    (hcut : prm.probability_cutoff < q)
    (hcoll : ∀ t ∈ train, t.collection ≠ -1) :
    ∃ kv, (get_probs data train prm).find? (fun x => decide (x.2 = q)) = some kv ∧
      kv.2 = q ∧ get_top_choice data train prm = some (kv.1, q) := by
  obtain ⟨kv1, hkv1, hq1⟩ := hmem
  have hsome : ((get_probs data train prm).find? (fun x => decide (x.2 = q))).isSome := by
    rw [List.find?_isSome]
    exact ⟨kv1, hkv1, by simp [hq1]⟩
  obtain ⟨kv0, hfind⟩ := Option.isSome_iff_exists.mp hsome
  have hmem0 : kv0 ∈ get_probs data train prm := List.mem_of_find?_eq_some hfind
  have hq0 : kv0.2 = q := by
    have := List.find?_some hfind
    simpa using this
  have hne : kv0.1 ≠ -1 := by
    have hkey : kv0.1 ∈ keysOf (get_probs data train prm) :=
      List.mem_map_of_mem Prod.fst hmem0
    rcases mem_keys_get_probs data train prm kv0.1 hkey with h0 | h0
    · rw [h0]; decide
    · rcases List.mem_map.mp h0 with ⟨t, ht, hteq⟩
      rw [← hteq]
      exact hcoll t ht
  have hfold := foldl_topStep_find (get_probs data train prm) q (-1)
    prm.probability_cutoff hcut hub kv0 hfind
  refine ⟨kv0, hfind, hq0, ?_⟩
  rw [get_top_choice, hfold]
  simp [hne]

/-- C2 (witness): the amended theorem applied to the concrete tie scenario,
where the first entry attaining the maximum 2/5 has key 1. -/
theorem tie_returns_first_encountered_witness :
    ∃ kv, (get_probs exTieQ exTieTrain exTieP).find? (fun x => decide (x.2 = 2/5)) = some kv ∧
      kv.2 = 2/5 ∧ get_top_choice exTieQ exTieTrain exTieP = some (kv.1, 2/5) :=
  tie_returns_first_encountered exTieQ exTieTrain exTieP (2/5)
    (by rw [probs_tie_eval]; exact ⟨(1, 2/5), by simp, rfl⟩)
    (by rw [probs_tie_eval]; intro kv hkv; fin_cases hkv <;> norm_num)
    (by norm_num [exTieP])
    (by decide)

/-- C8: two records with distinct ids, equal country, citation group and
author lists, one year apart, under
`country_boost = 2, cg_boost = 2, author_boost = 3, year_factor = 2`
score exactly `2 * 2 * 3 * (1 / 2 ^ 1) * year_boost`. -/
theorem exact_composition_one_year_apart (nam1 nam2 : NameData) (yb sc pc : ℚ)
    (hid : nam1.name_id ≠ nam2.name_id) (hc : nam1.tl_country = nam2.tl_country)
    (hcg : nam1.citation_group = nam2.citation_group) (ha : nam1.authors = nam2.authors)
    (hy : (nam1.year - nam2.year).natAbs = 1) :
    get_score nam1 nam2 ⟨2, 2, 3, 2, yb, sc, pc⟩ = 2 * 2 * 3 * (1 / 2 ^ (1 : ℕ)) * yb := by
  rw [get_score, if_neg hid]
  simp only [ha, hc, hcg, if_pos rfl, hy]
  norm_num
  ring

/-- C8 (witness): the composition theorem evaluated at the concrete records
`exC8a`, `exC8b` with `year_boost = 5`. -/
theorem exact_composition_one_year_apart_witness :
    get_score exC8a exC8b ⟨2, 2, 3, 2, 5, 0, 0⟩ = 2 * 2 * 3 * (1 / 2 ^ (1 : ℕ)) * 5 :=
  exact_composition_one_year_apart exC8a exC8b 5 0 0 (by decide) rfl rfl rfl (by decide)

/-- C3: with all boost parameters and the score cutoff nonnegative, the
bucket total is strictly positive and the values of `get_probs` sum to
exactly 1 (under the exact rational arithmetic of this embedding). -/
theorem probs_sum_to_one (data : NameData) (train : List NameData) (prm : Params)
    (hne : train ≠ []) (hcb : 0 ≤ prm.country_boost) (hcg : 0 ≤ prm.cg_boost)
    (hab : 0 ≤ prm.author_boost) (hyf : 0 ≤ prm.year_factor) (hyb : 0 ≤ prm.year_boost)
    (hsc : 0 ≤ prm.score_cutoff) :
    valuesSum (get_probs data train prm) = 1 := by
  rw [get_probs, valuesSum_mapValues_div]
  rw [show valuesSum (scoresMap data train prm) = totalScore data train prm from rfl]
  exact div_self (ne_of_gt (totalScore_pos data train prm hsc))

/-- C3 (witness): the sum of the probabilities in the concrete tie scenario
(four candidates, neutral nonnegative parameters) is 1. -/
theorem probs_sum_to_one_witness : valuesSum (get_probs exTieQ exTieTrain exTieP) = 1 :=
  probs_sum_to_one exTieQ exTieTrain exTieP (by simp [exTieTrain])
    (by norm_num [exTieP]) (by norm_num [exTieP]) (by norm_num [exTieP])
    (by norm_num [exTieP]) (by norm_num [exTieP]) (by norm_num [exTieP])

/-- C4: whenever `get_top_choice` returns a pair `(c, q)`, the probability
`q` strictly exceeds the probability cutoff and is exactly the value the
probability map assigns to `c`; and when no entry strictly exceeds the
cutoff, it returns no decision. -/
theorem top_choice_respects_cutoff (data : NameData) (train : List NameData) (prm : Params) :
    (∀ c q, get_top_choice data train prm = some (c, q) →
        prm.probability_cutoff < q ∧ lookupQ (get_probs data train prm) c = some q) ∧
      ((∀ kv ∈ get_probs data train prm, kv.2 ≤ prm.probability_cutoff) →
        get_top_choice data train prm = none) := by
  constructor
  · intro c q hsome
    rcases foldl_topStep_spec (get_probs data train prm) (-1) prm.probability_cutoff
      with hcase | ⟨hmem, hlt⟩
    · rw [get_top_choice, hcase] at hsome
      simp at hsome
    · rw [get_top_choice] at hsome
      by_cases hne :
          ((get_probs data train prm).foldl topStep (-1, prm.probability_cutoff)).1 = -1
      · rw [if_pos hne] at hsome
        exact absurd hsome (by simp)
      · rw [if_neg hne] at hsome
        have heq : (get_probs data train prm).foldl topStep (-1, prm.probability_cutoff)
            = (c, q) := by
          simpa using hsome
        rw [heq] at hmem hlt
        exact ⟨hlt, mem_lookupQ_of_nodup _ c q (nodup_keys_get_probs data train prm) hmem⟩
  · intro hall
    have hstay := foldl_topStep_stays (get_probs data train prm) (-1)
      prm.probability_cutoff hall
    rw [get_top_choice, hstay]
    simp

/-- C4 (witness): applying the theorem to the concrete tie scenario, where
`get_top_choice` returns `(1, 2/5)`: the cutoff 3/10 is exceeded and the
probability map assigns 2/5 to collection 1. -/
theorem top_choice_respects_cutoff_witness :
    exTieP.probability_cutoff < 2/5 ∧
      lookupQ (get_probs exTieQ exTieTrain exTieP) 1 = some (2/5) :=
  (top_choice_respects_cutoff exTieQ exTieTrain exTieP).1 1 (2/5) top_tie_eval

/-- C5 (counterexample): with `score_cutoff = -2` and `year_boost = -1`,
candidate `exC5a` in collection 0 scores -1 and the highest score stays at
its initial 1, so bucket 0 holds exactly 0 before normalization and the
normalized value of key 0 is 0 — not strictly positive, refuting the
unconditional positivity claim. -/
theorem reserved_bucket_positive_counterexample :
    lookupQ (get_probs exC5q [exC5a, exC5b] exC5p) 0 = some 0 ∧ ¬ (0 : ℚ) < 0 := by
  constructor
  · rw [probs_c5_eval]
    norm_num [lookupQ]
  · exact lt_irrefl 0

/-- C5 (amended): the probability map always contains key 0, whose bucket is
seeded before normalization by adding the maximum score (initialized to 1.0,
tracked independently of the score cutoff) to the gated collection-0 mass;
and when `score_cutoff` is nonnegative the normalized value at key 0 is
strictly positive. -/
theorem reserved_bucket_seeded_and_positive (data : NameData) (train : List NameData)
    (prm : Params) :
    lookupQ (scoresMap data train prm) 0 =
        some (passSum data train prm 0 + highestScore data train prm) ∧
      (∃ v, lookupQ (get_probs data train prm) 0 = some v) ∧
      (0 ≤ prm.score_cutoff →
        ∃ v, lookupQ (get_probs data train prm) 0 = some v ∧ 0 < v) := by
  refine ⟨lookupQ_scoresMap_zero data train prm, ?_, ?_⟩
  · refine ⟨(passSum data train prm 0 + highestScore data train prm) /
      totalScore data train prm, ?_⟩
    rw [lookupQ_get_probs, lookupQ_scoresMap_zero]
    rfl
  intro hsc
  refine ⟨(passSum data train prm 0 + highestScore data train prm) /
    totalScore data train prm, ?_, ?_⟩
  · rw [lookupQ_get_probs, lookupQ_scoresMap_zero]
    rfl
  · have hpass : 0 ≤ passSum data train prm 0 := by
      rw [passSum]
      refine List.sum_nonneg ?_
      intro x hx
      rcases List.mem_map.mp hx with ⟨t, _, rfl⟩
      by_cases hc : t.collection = 0
      · rw [if_pos hc]
        exact gatedScore_nonneg data prm t hsc
      · rw [if_neg hc]
    have hhigh := one_le_highestScore data train prm
    exact div_pos (by linarith) (totalScore_pos data train prm hsc)

/-- C5 (witness): the amended theorem applied to the concrete tie scenario,
whose score cutoff 0 is nonnegative. -/
theorem reserved_bucket_seeded_and_positive_witness :
    ∃ v, lookupQ (get_probs exTieQ exTieTrain exTieP) 0 = some v ∧ 0 < v :=
  (reserved_bucket_seeded_and_positive exTieQ exTieTrain exTieP).2.2 (by norm_num [exTieP])

/-- C6: `evaluate_model`'s scalar score is exactly
`correct - 10 * incorrect`, and the correct, incorrect and no-decision
counters sum to the number of test records. -/
theorem evaluate_score_identity (train test : List NameData) (prm : Params) :
    (evaluate_model train test prm).score =
        (evaluate_model train test prm).correct -
          10 * (evaluate_model train test prm).incorrect ∧
      (evaluate_model train test prm).correct + (evaluate_model train test prm).incorrect +
          (evaluate_model train test prm).no_value = (test.length : Int) := by
  constructor
  · rw [evaluate_model]
    simp only [FALSE_POSITIVE_COST]
    ring
  · rw [evaluate_model]
    simp only
    have := foldl_evalStep_counts train prm test (0, 0, 0)
    simpa using this

/-- C7: with an empty training set the probability map is exactly
`[(0, 1)]`; `get_top_choice` then returns `(0, 1)` precisely when the
probability cutoff is below 1, and no decision otherwise. -/
theorem empty_training_probs_and_top_choice (data : NameData) (prm : Params) :
    get_probs data [] prm = [(0, 1)] ∧
      (prm.probability_cutoff < 1 → get_top_choice data [] prm = some (0, 1)) ∧
      (1 ≤ prm.probability_cutoff → get_top_choice data [] prm = none) := by
  have hp : get_probs data [] prm = [(0, 1)] := by
    norm_num [get_probs, scoresMap, rawBuckets, totalScore, valuesSum, addToBucket]
  refine ⟨hp, ?_, ?_⟩
  · intro hcut
    rw [get_top_choice, hp]
    simp only [List.foldl_cons, List.foldl_nil, topStep]
    rw [if_pos (show ((-1 : Int), prm.probability_cutoff).2 < ((0 : Int), (1 : ℚ)).2 from hcut)]
    simp
  · intro hcut
    rw [get_top_choice, hp]
    simp only [List.foldl_cons, List.foldl_nil, topStep]
    rw [if_neg (show ¬ ((-1 : Int), prm.probability_cutoff).2 < ((0 : Int), (1 : ℚ)).2 from
      not_lt.mpr hcut)]
    simp

/-- C7 (witness): with the concrete cutoff 1/2 < 1, the empty-training
scenario yields the single-entry map and the decision `(0, 1)`. -/
theorem empty_training_probs_and_top_choice_witness :
    get_probs exC9q [] exC7p = [(0, 1)] ∧ get_top_choice exC9q [] exC7p = some (0, 1) :=
  ⟨(empty_training_probs_and_top_choice exC9q exC7p).1,
    (empty_training_probs_and_top_choice exC9q exC7p).2.1 (by norm_num [exC7p])⟩

/-- C9: when the unique strictly-largest probability above the cutoff sits in
bucket -1 (two candidates of collection -1 each scoring 1 give it 2/3 > 1/2),
`get_top_choice` returns no decision because -1 is also the absence sentinel,
and `evaluate_model` books the test record (whose true collection is -1)
under `no_value` instead of `correct`. -/
theorem sentinel_collection_conflation :
    get_probs exC9q [exC9a, exC9b] exC9p = [(-1, 2/3), (0, 1/3)] ∧
      exC9p.probability_cutoff < 2/3 ∧ (1 : ℚ)/3 ≤ exC9p.probability_cutoff ∧
      get_top_choice exC9q [exC9a, exC9b] exC9p = none ∧
      exC9q.collection = -1 ∧
      evaluate_model [exC9a, exC9b] [exC9q] exC9p = ⟨0, 0, 0, 1⟩ := by
  refine ⟨probs_c9_eval, by norm_num [exC9p], by norm_num [exC9p], top_c9_eval,
    rfl, ?_⟩
  rw [evaluate_model]
  simp [evalStep, top_impl_c9_eval, FALSE_POSITIVE_COST]

/-- C10: the gated scores of collection-0 candidates and the reserved
maximum-score mass are accumulated into one and the same bucket: the value
of key 0 in `get_probs` is `(passSum 0 + highestScore) / totalScore`, and
the key 0 occurs only once (the map's keys are nodup), so the reserved
bucket and a real collection 0 are indistinguishable in the output. -/
theorem collection_zero_bucket_merged (data : NameData) (train : List NameData)
    (prm : Params) :
    lookupQ (get_probs data train prm) 0 =
        some ((passSum data train prm 0 + highestScore data train prm) /
          totalScore data train prm) ∧
      (keysOf (get_probs data train prm)).Nodup := by
  constructor
  · rw [lookupQ_get_probs, lookupQ_scoresMap_zero]
    rfl
  · exact nodup_keys_get_probs data train prm
